import Mathlib

/-!
Verification of the TWI (I2C) slave driver `src/Slave_A1B2/Slave_A1B2_CodeDev/twiSlave.c`.

The driver keeps two circular byte FIFOs (`rxBuf`/`rxHead`/`rxTail` and
`txBuf`/`txHead`/`txTail`) plus the TWI hardware registers (`TWAR`, `TWCR`,
`TWDR`); the interrupt service routine `ISR(TWI_vect)` dispatches on the bus
status register `TWSR`.  All of that state is embedded in one record
`TwiState`; every C function becomes a pure state transformer.  Data bytes are
modelled as naturals: the driver only moves them and never computes on them.

The buffer sizes `TWI_RX_BUFFER_SIZE` / `TWI_TX_BUFFER_SIZE` and the masks
`TWI_RX_BUFFER_MASK` / `TWI_TX_BUFFER_MASK` come from `twiSlave.h`, which is
not part of the sources here.  Modelled from the spec: the capacity is a power
of two (the spec's scenarios use capacity 8, mask 0x07) and the mask is
capacity − 1.  The operations therefore take the mask as an explicit
parameter, and the theorems quantify over any power-of-two capacity `2 ^ k`.
-/

namespace TwiSlave

/-! ### Hardware register bit positions (from `avr/io.h`, ATmega TWI module) -/

def TWINT : Nat := 7
def TWEA : Nat := 6
def TWSTA : Nat := 5
def TWSTO : Nat := 4
def TWWC : Nat := 3
def TWEN : Nat := 2
def TWIE : Nat := 0

/-! ### TWI status codes (local defines of twiSlave.c) -/

def TWI_SRX_ADR_ACK : Nat := 0x60
def TWI_SRX_ADR_ACK_M_ARB_LOST : Nat := 0x68
def TWI_SRX_GEN_ACK : Nat := 0x70
def TWI_SRX_GEN_ACK_M_ARB_LOST : Nat := 0x78
def TWI_SRX_ADR_DATA_ACK : Nat := 0x80
def TWI_SRX_ADR_DATA_NACK : Nat := 0x88
def TWI_SRX_GEN_DATA_ACK : Nat := 0x90
def TWI_SRX_GEN_DATA_NACK : Nat := 0x98
def TWI_SRX_STOP_RESTART : Nat := 0xA0
def TWI_STX_ADR_ACK : Nat := 0xA8
def TWI_STX_ADR_ACK_M_ARB_LOST : Nat := 0xB0
def TWI_STX_DATA_ACK : Nat := 0xB8
def TWI_STX_DATA_NACK : Nat := 0xC0
def TWI_STX_DATA_ACK_LAST_BYTE : Nat := 0xC8
def TWI_NO_STATE : Nat := 0xF8
def TWI_BUS_ERROR : Nat := 0x00

/-! ### Program state

The file-scope variables of twiSlave.c together with the three TWI hardware
registers the driver writes.  `TWSR` is read-only input to the ISR and is
passed as an argument instead. -/

structure TwiState where
  rxBuf : List Nat
  rxHead : Nat
  rxTail : Nat
  txBuf : List Nat
  txHead : Nat
  txTail : Nat
  TWAR : Nat
  TWCR : Nat
  TWDR : Nat
  deriving Repr, DecidableEq

/-- Reset both FIFO index pairs so the FIFOs show empty (`flushTwiBuffers`). -/
def flushTwiBuffers (s : TwiState) : TwiState :=
  { s with rxTail := 0, rxHead := 0, txTail := 0, txHead := 0 }

/-- Set the own-address register (`twiSlaveInit( adrs )`) to `(adrs << 1)|(0)`
(an 8-bit register, hence the reduction mod 256 for arguments near 255) and
write TWCR with only TWEN set. -/
def twiSlaveInit (adrs : Nat) (s : TwiState) : TwiState :=
  { s with
      TWAR := ((adrs <<< 1) ||| 0) % 256,
      TWCR := (1 <<< TWEN) ||| (0 <<< TWIE) ||| (0 <<< TWINT) ||| (0 <<< TWEA) |||
              (0 <<< TWSTA) ||| (0 <<< TWSTO) ||| (0 <<< TWWC) }

/-- Write TWCR with TWEN, TWIE, TWINT and TWEA set (`twiSlaveEnable()`). -/
def twiSlaveEnable (s : TwiState) : TwiState :=
  { s with
      TWCR := (1 <<< TWEN) ||| (1 <<< TWIE) ||| (1 <<< TWINT) ||| (1 <<< TWEA) |||
              (0 <<< TWSTA) ||| (0 <<< TWSTO) ||| (0 <<< TWWC) }

/-- Producer push onto the transmit FIFO (`twiTransmitByte( data )`).
`tmphead = (txHead + 1) & TWI_TX_BUFFER_MASK`; if `tmphead == txTail` the
buffer is full and the function returns (void) without touching anything;
otherwise it stores `data` at `tmphead` and advances `txHead`. -/
def twiTransmitByte (txMask data : Nat) (s : TwiState) : TwiState :=
  let tmphead := (s.txHead + 1) &&& txMask
  if tmphead = s.txTail then s
  else { s with txBuf := s.txBuf.set tmphead data, txHead := tmphead }

/-- Consumer pop from the receive FIFO (`twiReceiveByte()`).  Returns 0x88 and
leaves the state alone if `rxHead == rxTail`; otherwise advances
`rxTail = (rxTail + 1) & TWI_RX_BUFFER_MASK` and returns `rxBuf[rxTail]`. -/
def twiReceiveByte (rxMask : Nat) (s : TwiState) : Nat × TwiState :=
  if s.rxHead = s.rxTail then (0x88, s)
  else
    (s.rxBuf.getD ((s.rxTail + 1) &&& rxMask) 0,
     { s with rxTail := (s.rxTail + 1) &&& rxMask })

/-- Availability probe `twiDataInReceiveBuffer()`: `rxHead != rxTail`. -/
def twiDataInReceiveBuffer (s : TwiState) : Bool :=
  s.rxHead != s.rxTail

/-- Pending-transmit probe `twiDataInTransmitBuffer()`: `txHead != txTail`. -/
def twiDataInTransmitBuffer (s : TwiState) : Bool :=
  s.txHead != s.txTail

/-- Reset the transmit FIFO indices to 0 (`twiClearOutput()`). -/
def twiClearOutput (s : TwiState) : TwiState :=
  { s with txTail := 0, txHead := 0 }

/-- Producer push onto the receive FIFO (`twiStuffRxBuf( data )`, same shape
as `twiTransmitByte`, on the rx fields).  Used by the ISR on data-received
events and directly for testing. -/
def twiStuffRxBuf (rxMask data : Nat) (s : TwiState) : TwiState :=
  let tmphead := (s.rxHead + 1) &&& rxMask
  if tmphead = s.rxTail then s
  else { s with rxBuf := s.rxBuf.set tmphead data, rxHead := tmphead }

/-- The TWCR value `(1<<TWEN)|(1<<TWIE)|(1<<TWINT)|(1<<TWEA)` the ISR writes
on every non-error branch to re-arm for the next event. -/
def twcrArm : Nat :=
  (1 <<< TWEN) ||| (1 <<< TWIE) ||| (1 <<< TWINT) ||| (1 <<< TWEA)

/-- The TWCR value `(1<<TWSTO)|(1<<TWINT)` the ISR writes on the error
branch to recover from `TWI_BUS_ERROR` and kin. -/
def twcrStop : Nat :=
  (1 <<< TWSTO) ||| (1 <<< TWINT)

/-- The interrupt service routine `ISR( TWI_vect )`, one bus event.  `twsr` is the value of the status
register TWSR; the received data byte, when there is one, is already latched
in `TWDR`.  The branch structure mirrors the C `switch` case for case,
including the commented-out arbitration-lost labels (absent here as in the
compiled code) and the `default` fallback. -/
def twiISR (rxMask txMask twsr : Nat) (s : TwiState) : TwiState :=
  if twsr = TWI_SRX_ADR_ACK then
    { s with TWCR := twcrArm }
  else if twsr = TWI_SRX_ADR_DATA_ACK ∨ twsr = TWI_SRX_GEN_DATA_ACK then
    { twiStuffRxBuf rxMask s.TWDR s with TWCR := twcrArm }
  else if twsr = TWI_SRX_GEN_ACK then
    { s with TWCR := twcrArm }
  else if twsr = TWI_STX_ADR_ACK ∨ twsr = TWI_STX_DATA_ACK then
    if s.txHead ≠ s.txTail then
      { s with txTail := (s.txTail + 1) &&& txMask,
               TWDR := s.txBuf.getD ((s.txTail + 1) &&& txMask) 0,
               TWCR := twcrArm }
    else
      { s with TWDR := 0x88, TWCR := twcrArm }
  else if twsr = TWI_STX_DATA_NACK then
    { s with TWCR := twcrArm }
  else if twsr = TWI_SRX_STOP_RESTART then
    { s with TWCR := twcrArm }
  else if twsr = TWI_SRX_ADR_DATA_NACK ∨ twsr = TWI_SRX_GEN_DATA_NACK ∨
          twsr = TWI_STX_DATA_ACK_LAST_BYTE ∨ twsr = TWI_NO_STATE ∨
          twsr = TWI_BUS_ERROR then
    { s with TWCR := twcrStop }
  else
    { s with TWCR := twcrArm }

/-- A state with both FIFO storages of the given sizes and everything
zero-initialized, as C zero-initializes the file-scope variables. -/
def mkState (nr nt : Nat) : TwiState :=
  ⟨List.replicate nr 0, 0, 0, List.replicate nt 0, 0, 0, 0, 0, 0⟩

/-! ### Abstraction: the logical contents of a circular buffer

A buffer with storage `buf`, producer index `head` and consumer index `tail`
logically holds the bytes at positions `tail+1, tail+2, …` (indices taken
`&&& mask`) up to and including `head`.  `bufWalk` collects them, consuming
one unit of fuel per byte; `mask + 1` fuel always suffices for in-range
indices.  `bufCount` is the number of pending bytes. -/

def bufWalk (mask : Nat) (buf : List Nat) (head : Nat) : Nat → Nat → List Nat
  | 0, _ => []
  | fuel + 1, tail =>
    if head = tail then []
    else buf.getD ((tail + 1) &&& mask) 0 ::
      bufWalk mask buf head fuel ((tail + 1) &&& mask)

def bufContents (mask : Nat) (buf : List Nat) (head tail : Nat) : List Nat :=
  bufWalk mask buf head (mask + 1) tail

/-- Number of pending bytes of a buffer of capacity `n`. -/
def bufCount (n head tail : Nat) : Nat :=
  (head + n - tail) % n

/-- Logical contents of the receive FIFO. -/
def rxContents (rxMask : Nat) (s : TwiState) : List Nat :=
  bufContents rxMask s.rxBuf s.rxHead s.rxTail

/-- Logical contents of the transmit FIFO. -/
def txContents (txMask : Nat) (s : TwiState) : List Nat :=
  bufContents txMask s.txBuf s.txHead s.txTail

/-! ### Modular index arithmetic -/

theorem mod_of_le {n x : Nat} (hx : x ≤ n) :
    x % n = if x = n then 0 else x := by
  split
  · simp [*, Nat.mod_self]
  · exact Nat.mod_eq_of_lt (by omega)

theorem mod_of_lt_two_mul {n x : Nat} (hx : x < 2 * n) :
    x % n = if x < n then x else x - n := by
  split
  · exact Nat.mod_eq_of_lt (by assumption)
  · rw [Nat.mod_eq_sub_mod (by omega), Nat.mod_eq_of_lt (by omega)]

/-- The successor map modulo `n` is injective on `[0, n)`. -/
theorem succ_mod_inj {n t h : Nat} (ht : t < n) (hh : h < n)
    (heq : (t + 1) % n = (h + 1) % n) : t = h := by
  rw [mod_of_le (by omega), mod_of_le (by omega)] at heq
  split_ifs at heq <;> omega

theorem bufCount_lt {n h t : Nat} (hn : 0 < n) : bufCount n h t < n :=
  Nat.mod_lt _ hn

/-- The buffer is empty exactly when `head == tail`. -/
theorem bufCount_eq_zero_iff {n h t : Nat} (hh : h < n) (ht : t < n) :
    bufCount n h t = 0 ↔ h = t := by
  unfold bufCount
  rw [mod_of_lt_two_mul (by omega)]
  split_ifs <;> omega

/-- The push guard `(head+1) & mask == tail` fires exactly on a buffer
holding capacity − 1 bytes. -/
theorem bufCount_full_iff {n h t : Nat} (hn : 0 < n) (hh : h < n) (ht : t < n) :
    (h + 1) % n = t ↔ bufCount n h t = n - 1 := by
  unfold bufCount
  rw [mod_of_le (by omega), mod_of_lt_two_mul (by omega)]
  split_ifs <;> omega

/-- Advancing `head` on a non-full buffer adds one pending byte. -/
theorem bufCount_push {n h t : Nat} (hn : 0 < n) (hh : h < n) (ht : t < n)
    (hne : (h + 1) % n ≠ t) :
    bufCount n ((h + 1) % n) t = bufCount n h t + 1 := by
  unfold bufCount
  have e1 : (h + 1) % n = if h + 1 = n then 0 else h + 1 := mod_of_le (by omega)
  rw [e1] at hne ⊢
  by_cases hc : h + 1 = n
  · rw [if_pos hc] at hne ⊢
    have e2 : (0 + n - t) % n = if 0 + n - t < n then 0 + n - t else 0 + n - t - n :=
      mod_of_lt_two_mul (by omega)
    have e3 : (h + n - t) % n = if h + n - t < n then h + n - t else h + n - t - n :=
      mod_of_lt_two_mul (by omega)
    rw [e2, e3]
    split_ifs <;> omega
  · rw [if_neg hc] at hne ⊢
    have e2 : (h + 1 + n - t) % n =
        if h + 1 + n - t < n then h + 1 + n - t else h + 1 + n - t - n :=
      mod_of_lt_two_mul (by omega)
    have e3 : (h + n - t) % n = if h + n - t < n then h + n - t else h + n - t - n :=
      mod_of_lt_two_mul (by omega)
    rw [e2, e3]
    split_ifs <;> omega

/-- Advancing `tail` on a non-empty buffer removes one pending byte. -/
theorem bufCount_pop {n h t : Nat} (hh : h < n) (ht : t < n)
    (hne : h ≠ t) :
    bufCount n h ((t + 1) % n) = bufCount n h t - 1 := by
  unfold bufCount
  have e1 : (t + 1) % n = if t + 1 = n then 0 else t + 1 := mod_of_le (by omega)
  rw [e1]
  by_cases hc : t + 1 = n
  · rw [if_pos hc]
    have e2 : (h + n - 0) % n = if h + n - 0 < n then h + n - 0 else h + n - 0 - n :=
      mod_of_lt_two_mul (by omega)
    have e3 : (h + n - t) % n = if h + n - t < n then h + n - t else h + n - t - n :=
      mod_of_lt_two_mul (by omega)
    rw [e2, e3]
    split_ifs <;> omega
  · rw [if_neg hc]
    have e2 : (h + n - (t + 1)) % n =
        if h + n - (t + 1) < n then h + n - (t + 1) else h + n - (t + 1) - n :=
      mod_of_lt_two_mul (by omega)
    have e3 : (h + n - t) % n = if h + n - t < n then h + n - t else h + n - t - n :=
      mod_of_lt_two_mul (by omega)
    rw [e2, e3]
    split_ifs <;> omega

/-! ### `List.getD` over `List.set` -/

theorem getD_set_ne (l : List Nat) {i j : Nat} (hij : i ≠ j) (a d : Nat) :
    (l.set i a).getD j d = l.getD j d := by
  simp [List.getD_eq_getElem?_getD, List.getElem?_set_ne hij]

theorem getD_set_self (l : List Nat) {i : Nat} (hi : i < l.length) (a d : Nat) :
    (l.set i a).getD i d = a := by
  simp [List.getD_eq_getElem?_getD, List.getElem?_set_self hi]

/-! ### Walk lemmas

Throughout, the capacity is `mask + 1` and the hypothesis `mask = 2 ^ k - 1`
makes the C index computation `x & mask` agree with `x % (mask + 1)`. -/

theorem and_mask_eq_mod {k mask : Nat} (hmask : mask = 2 ^ k - 1) (x : Nat) :
    x &&& mask = x % (mask + 1) := by
  subst hmask
  have hp : 0 < 2 ^ k := Nat.two_pow_pos k
  have he : 2 ^ k - 1 + 1 = 2 ^ k := by omega
  rw [he]
  exact Nat.and_pow_two_sub_one_eq_mod x k

theorem bufWalk_self (mask : Nat) (buf : List Nat) (hd : Nat) :
    ∀ fuel, bufWalk mask buf hd fuel hd = [] := by
  intro fuel
  cases fuel <;> simp [bufWalk]

/-- Any two sufficient amounts of fuel produce the same walk. -/
theorem bufWalk_congr {k mask : Nat} (hmask : mask = 2 ^ k - 1) (buf : List Nat)
    {h : Nat} (hh : h < mask + 1) :
    ∀ f1 f2 t, t < mask + 1 → bufCount (mask + 1) h t ≤ f1 →
      bufCount (mask + 1) h t ≤ f2 →
      bufWalk mask buf h f1 t = bufWalk mask buf h f2 t := by
  intro f1
  induction f1 with
  | zero =>
    intro f2 t ht h1 h2
    have het : h = t := (bufCount_eq_zero_iff hh ht).mp (Nat.le_zero.mp h1)
    subst het
    rw [bufWalk_self, bufWalk_self]
  | succ f1 ih =>
    intro f2 t ht h1 h2
    by_cases hht : h = t
    · subst hht
      rw [bufWalk_self, bufWalk_self]
    · have hc0 : bufCount (mask + 1) h t ≠ 0 := fun hc =>
        hht ((bufCount_eq_zero_iff hh ht).mp hc)
      cases f2 with
      | zero => omega
      | succ f2 =>
        simp only [bufWalk, if_neg hht]
        rw [and_mask_eq_mod hmask]
        have hlt : (t + 1) % (mask + 1) < mask + 1 := Nat.mod_lt _ (by omega)
        have hdec : bufCount (mask + 1) h ((t + 1) % (mask + 1))
            = bufCount (mask + 1) h t - 1 := bufCount_pop hh ht hht
        congr 1
        exact ih f2 _ hlt (by omega) (by omega)

/-- With sufficient fuel, the walk has exactly `bufCount` elements. -/
theorem bufWalk_length {k mask : Nat} (hmask : mask = 2 ^ k - 1) (buf : List Nat)
    {h : Nat} (hh : h < mask + 1) :
    ∀ fuel t, t < mask + 1 → bufCount (mask + 1) h t ≤ fuel →
      (bufWalk mask buf h fuel t).length = bufCount (mask + 1) h t := by
  intro fuel
  induction fuel with
  | zero =>
    intro t ht hle
    have het : h = t := (bufCount_eq_zero_iff hh ht).mp (Nat.le_zero.mp hle)
    subst het
    have hz : bufCount (mask + 1) h h = 0 := (bufCount_eq_zero_iff hh hh).mpr rfl
    rw [bufWalk_self, hz]
    rfl
  | succ fuel ih =>
    intro t ht hle
    by_cases hht : h = t
    · subst hht
      have hz : bufCount (mask + 1) h h = 0 := (bufCount_eq_zero_iff hh hh).mpr rfl
      rw [bufWalk_self, hz]
      rfl
    · have hc0 : bufCount (mask + 1) h t ≠ 0 := fun hc =>
        hht ((bufCount_eq_zero_iff hh ht).mp hc)
      simp only [bufWalk, if_neg hht, List.length_cons]
      rw [and_mask_eq_mod hmask]
      have hlt : (t + 1) % (mask + 1) < mask + 1 := Nat.mod_lt _ (by omega)
      have hdec : bufCount (mask + 1) h ((t + 1) % (mask + 1))
          = bufCount (mask + 1) h t - 1 := bufCount_pop hh ht hht
      rw [ih _ hlt (by omega), hdec]
      omega

/-- Pushing a byte at `(head+1) % n` on a non-full buffer appends it to the
logical contents. -/
theorem bufWalk_push {k mask : Nat} (hmask : mask = 2 ^ k - 1) {buf : List Nat}
    {h d : Nat} (hh : h < mask + 1) (hbuf : buf.length = mask + 1) :
    ∀ fuel t, t < mask + 1 → bufCount (mask + 1) h t < fuel →
      (h + 1) % (mask + 1) ≠ t →
      bufWalk mask (buf.set ((h + 1) % (mask + 1)) d) ((h + 1) % (mask + 1)) fuel t
        = bufWalk mask buf h fuel t ++ [d] := by
  intro fuel
  induction fuel with
  | zero =>
    intro t ht hlt hne
    omega
  | succ fuel ih =>
    intro t ht hlt hne
    have hh1 : (h + 1) % (mask + 1) < mask + 1 := Nat.mod_lt _ (by omega)
    by_cases hht : h = t
    · subst hht
      rw [bufWalk_self]
      simp only [bufWalk, if_neg hne]
      rw [and_mask_eq_mod hmask]
      rw [getD_set_self buf (by omega) d 0]
      rw [bufWalk_self]
      rfl
    · have hc0 : bufCount (mask + 1) h t ≠ 0 := fun hc =>
        hht ((bufCount_eq_zero_iff hh ht).mp hc)
      have t1lt : (t + 1) % (mask + 1) < mask + 1 := Nat.mod_lt _ (by omega)
      have h1net : (h + 1) % (mask + 1) ≠ (t + 1) % (mask + 1) := fun he =>
        hht (succ_mod_inj hh ht he)
      simp only [bufWalk, if_neg hne, if_neg hht]
      rw [and_mask_eq_mod hmask]
      rw [List.cons_append]
      rw [getD_set_ne buf h1net d 0]
      have hdec : bufCount (mask + 1) h ((t + 1) % (mask + 1))
          = bufCount (mask + 1) h t - 1 := bufCount_pop hh ht hht
      congr 1
      exact ih _ t1lt (by omega) h1net

/-! ### Contents-level lemmas -/

theorem bufContents_length {k mask : Nat} (hmask : mask = 2 ^ k - 1)
    (buf : List Nat) {h t : Nat} (hh : h < mask + 1) (ht : t < mask + 1) :
    (bufContents mask buf h t).length = bufCount (mask + 1) h t :=
  bufWalk_length hmask buf hh (mask + 1) t ht
    (Nat.le_of_lt (bufCount_lt (by omega)))

theorem bufContents_self (mask : Nat) (buf : List Nat) (h : Nat) :
    bufContents mask buf h h = [] :=
  bufWalk_self mask buf h (mask + 1)

theorem bufContents_ne {k mask : Nat} (hmask : mask = 2 ^ k - 1)
    (buf : List Nat) {h t : Nat} (hh : h < mask + 1) (_ht : t < mask + 1)
    (hht : h ≠ t) :
    bufContents mask buf h t
      = buf.getD ((t + 1) % (mask + 1)) 0
        :: bufContents mask buf h ((t + 1) % (mask + 1)) := by
  unfold bufContents
  conv_lhs => rw [bufWalk]
  rw [if_neg hht, and_mask_eq_mod hmask]
  congr 1
  have t1lt : (t + 1) % (mask + 1) < mask + 1 := Nat.mod_lt _ (by omega)
  have hcnt : bufCount (mask + 1) h ((t + 1) % (mask + 1)) < mask + 1 :=
    bufCount_lt (by omega)
  exact bufWalk_congr hmask buf hh mask (mask + 1) _ t1lt (by omega) (by omega)

/-! ### Step lemmas for the receive FIFO operations -/

/-- Pushing into a receive buffer holding at most capacity − 2 bytes appends
the byte to the logical contents, advances `rxHead` and touches nothing
else. -/
theorem twiStuffRxBuf_append {k mask : Nat} (hmask : mask = 2 ^ k - 1)
    {s : TwiState} {d : Nat} (hh : s.rxHead < mask + 1) (ht : s.rxTail < mask + 1)
    (hbuf : s.rxBuf.length = mask + 1)
    (hroom : (rxContents mask s).length + 1 ≤ mask) :
    rxContents mask (twiStuffRxBuf mask d s) = rxContents mask s ++ [d] ∧
      (twiStuffRxBuf mask d s) = { s with
        rxBuf := s.rxBuf.set ((s.rxHead + 1) % (mask + 1)) d,
        rxHead := (s.rxHead + 1) % (mask + 1) } := by
  have hcnt : (rxContents mask s).length = bufCount (mask + 1) s.rxHead s.rxTail :=
    bufContents_length hmask s.rxBuf hh ht
  have hne : (s.rxHead + 1) % (mask + 1) ≠ s.rxTail := by
    intro he
    have := (bufCount_full_iff (by omega) hh ht).mp he
    omega
  have hguard : ((s.rxHead + 1) &&& mask) ≠ s.rxTail := by
    rw [and_mask_eq_mod hmask]
    exact hne
  constructor
  · unfold twiStuffRxBuf rxContents
    rw [if_neg hguard]
    simp only [and_mask_eq_mod hmask]
    unfold bufContents
    exact bufWalk_push hmask hh hbuf (mask + 1) s.rxTail ht
      (bufCount_lt (by omega)) hne
  · unfold twiStuffRxBuf
    rw [if_neg hguard]
    simp only [and_mask_eq_mod hmask]

/-- Pushing into a receive buffer already holding capacity − 1 bytes is a
no-op: the whole state, contents, head and tail included, is unchanged. -/
theorem twiStuffRxBuf_full {k mask : Nat} (hmask : mask = 2 ^ k - 1)
    {s : TwiState} (d : Nat) (hh : s.rxHead < mask + 1) (ht : s.rxTail < mask + 1)
    (hfull : (rxContents mask s).length = mask) :
    twiStuffRxBuf mask d s = s := by
  have hcnt : (rxContents mask s).length = bufCount (mask + 1) s.rxHead s.rxTail :=
    bufContents_length hmask s.rxBuf hh ht
  have hguard : ((s.rxHead + 1) &&& mask) = s.rxTail := by
    rw [and_mask_eq_mod hmask]
    exact (bufCount_full_iff (by omega) hh ht).mpr (by omega)
  unfold twiStuffRxBuf
  rw [if_pos hguard]

/-- Popping from an empty receive buffer returns the 0x88 sentinel and leaves
the state untouched. -/
theorem twiReceiveByte_empty (mask : Nat) {s : TwiState}
    (hempty : s.rxHead = s.rxTail) :
    twiReceiveByte mask s = (0x88, s) := by
  unfold twiReceiveByte
  rw [if_pos hempty]

/-- Popping from a non-empty receive buffer returns the oldest byte and leaves
exactly the younger bytes, advancing only `rxTail`. -/
theorem twiReceiveByte_cons {k mask : Nat} (hmask : mask = 2 ^ k - 1)
    {s : TwiState} {d : Nat} {rest : List Nat}
    (hh : s.rxHead < mask + 1) (ht : s.rxTail < mask + 1)
    (hcons : rxContents mask s = d :: rest) :
    (twiReceiveByte mask s).1 = d ∧
      rxContents mask (twiReceiveByte mask s).2 = rest ∧
      (twiReceiveByte mask s).2
        = { s with rxTail := (s.rxTail + 1) % (mask + 1) } := by
  have hht : s.rxHead ≠ s.rxTail := by
    intro he
    rw [rxContents, he, bufContents_self] at hcons
    exact List.noConfusion hcons
  have hsplit := bufContents_ne hmask s.rxBuf hh ht hht
  rw [rxContents, hsplit] at hcons
  injection hcons with h1 h2
  refine ⟨?_, ?_, ?_⟩
  · simp only [twiReceiveByte, if_neg hht, and_mask_eq_mod hmask]
    exact h1
  · simp only [twiReceiveByte, if_neg hht, and_mask_eq_mod hmask, rxContents]
    exact h2
  · simp only [twiReceiveByte, if_neg hht, and_mask_eq_mod hmask]

/-! ### Sequences of receive-buffer operations

`rxRun` executes a sequence of producer pushes (`twiStuffRxBuf`) and consumer
pops (`twiReceiveByte`) on the driver state, collecting every popped byte.
`absRun` executes the same sequence on an ideal unbounded FIFO queue.
`boundedOps` checks the side condition of the claim: no push ever brings the
number of pending bytes above capacity − 1. -/

inductive RxOp where
  | push (d : Nat)
  | pop
  deriving Repr, DecidableEq

def rxRun (rxMask : Nat) : TwiState → List RxOp → TwiState × List Nat
  | s, [] => (s, [])
  | s, RxOp.push d :: ops => rxRun rxMask (twiStuffRxBuf rxMask d s) ops
  | s, RxOp.pop :: ops =>
    let p := twiReceiveByte rxMask s
    let r := rxRun rxMask p.2 ops
    (r.1, p.1 :: r.2)

/-- Ideal FIFO pop; an empty queue yields the 0x88 sentinel, matching
`twiReceiveByte` on an empty buffer. -/
def absPop : List Nat → Nat × List Nat
  | [] => (0x88, [])
  | d :: q => (d, q)

def absRun : List Nat → List RxOp → List Nat × List Nat
  | q, [] => (q, [])
  | q, RxOp.push d :: ops => absRun (q ++ [d]) ops
  | q, RxOp.pop :: ops =>
    let p := absPop q
    let r := absRun p.2 ops
    (r.1, p.1 :: r.2)

/-- The sequence of operations never takes the pending count above
`cap − 1` bytes. -/
def boundedOps (cap : Nat) : List Nat → List RxOp → Bool
  | _, [] => true
  | q, RxOp.push d :: ops => q.length + 1 ≤ cap - 1 && boundedOps cap (q ++ [d]) ops
  | q, RxOp.pop :: ops => boundedOps cap (absPop q).2 ops

/-- Simulation: under the bound, the driver's receive FIFO behaves exactly
like the ideal FIFO — same popped bytes, same final contents — and the index
invariant is preserved. -/
theorem rxRun_sim {k mask : Nat} (hmask : mask = 2 ^ k - 1) :
    ∀ (ops : List RxOp) (s : TwiState),
      s.rxHead < mask + 1 → s.rxTail < mask + 1 → s.rxBuf.length = mask + 1 →
      boundedOps (mask + 1) (rxContents mask s) ops = true →
      (rxRun mask s ops).2 = (absRun (rxContents mask s) ops).2 ∧
        rxContents mask (rxRun mask s ops).1 = (absRun (rxContents mask s) ops).1 := by
  intro ops
  induction ops with
  | nil =>
    intro s hh ht hbuf hbound
    exact ⟨rfl, rfl⟩
  | cons op ops ih =>
    intro s hh ht hbuf hbound
    cases op with
    | push d =>
      rw [boundedOps, Bool.and_eq_true] at hbound
      obtain ⟨hroom, hbound⟩ := hbound
      have hroom : (rxContents mask s).length + 1 ≤ mask := by
        have := of_decide_eq_true hroom
        omega
      obtain ⟨happ, hstate⟩ := twiStuffRxBuf_append hmask hh ht hbuf hroom
      have hh2 : (twiStuffRxBuf mask d s).rxHead < mask + 1 := by
        rw [hstate]
        exact Nat.mod_lt _ (by omega)
      have ht2 : (twiStuffRxBuf mask d s).rxTail < mask + 1 := by
        rw [hstate]
        exact ht
      have hbuf2 : (twiStuffRxBuf mask d s).rxBuf.length = mask + 1 := by
        rw [hstate]
        simp [hbuf]
      rw [rxRun, absRun]
      rw [← happ] at hbound ⊢
      exact ih _ hh2 ht2 hbuf2 hbound
    | pop =>
      rw [boundedOps] at hbound
      cases hq : rxContents mask s with
      | nil =>
        have hht : s.rxHead = s.rxTail := by
          by_contra hne
          rw [rxContents, bufContents_ne hmask s.rxBuf hh ht hne] at hq
          exact List.noConfusion hq
        have hrecv := twiReceiveByte_empty mask hht
        rw [hq] at hbound
        simp only [absPop] at hbound
        have hstep := ih s hh ht hbuf (by rw [hq]; exact hbound)
        rw [hq] at hstep
        rw [rxRun, absRun, hrecv]
        simp only [absPop]
        exact ⟨by simp [hstep.1], by simp [hstep.2]⟩
      | cons d rest =>
        obtain ⟨hfst, hrest, hstate⟩ := twiReceiveByte_cons hmask hh ht hq
        have hh2 : (twiReceiveByte mask s).2.rxHead < mask + 1 := by
          rw [hstate]
          exact hh
        have ht2 : (twiReceiveByte mask s).2.rxTail < mask + 1 := by
          rw [hstate]
          exact Nat.mod_lt _ (by omega)
        have hbuf2 : (twiReceiveByte mask s).2.rxBuf.length = mask + 1 := by
          rw [hstate]
          exact hbuf
        rw [hq] at hbound
        simp only [absPop] at hbound
        rw [← hrest] at hbound
        have hstep := ih _ hh2 ht2 hbuf2 hbound
        rw [hrest] at hstep
        rw [rxRun, absRun]
        simp only [absPop]
        exact ⟨by simp [hfst, hstep.1], by simp [hstep.2]⟩

/-! ### Step lemmas for the transmit FIFO operations -/

/-- Pushing into a transmit buffer holding at most capacity − 2 bytes appends
the byte, advances `txHead` and touches nothing else. -/
theorem twiTransmitByte_append {k mask : Nat} (hmask : mask = 2 ^ k - 1)
    {s : TwiState} {d : Nat} (hh : s.txHead < mask + 1) (ht : s.txTail < mask + 1)
    (hbuf : s.txBuf.length = mask + 1)
    (hroom : (txContents mask s).length + 1 ≤ mask) :
    txContents mask (twiTransmitByte mask d s) = txContents mask s ++ [d] ∧
      (twiTransmitByte mask d s) = { s with
        txBuf := s.txBuf.set ((s.txHead + 1) % (mask + 1)) d,
        txHead := (s.txHead + 1) % (mask + 1) } := by
  have hcnt : (txContents mask s).length = bufCount (mask + 1) s.txHead s.txTail :=
    bufContents_length hmask s.txBuf hh ht
  have hne : (s.txHead + 1) % (mask + 1) ≠ s.txTail := by
    intro he
    have := (bufCount_full_iff (by omega) hh ht).mp he
    omega
  have hguard : ((s.txHead + 1) &&& mask) ≠ s.txTail := by
    rw [and_mask_eq_mod hmask]
    exact hne
  constructor
  · unfold twiTransmitByte txContents
    rw [if_neg hguard]
    simp only [and_mask_eq_mod hmask]
    unfold bufContents
    exact bufWalk_push hmask hh hbuf (mask + 1) s.txTail ht
      (bufCount_lt (by omega)) hne
  · unfold twiTransmitByte
    rw [if_neg hguard]
    simp only [and_mask_eq_mod hmask]

/-- Pushing into a transmit buffer already holding capacity − 1 bytes is a
no-op on the entire state. -/
theorem twiTransmitByte_full {k mask : Nat} (hmask : mask = 2 ^ k - 1)
    {s : TwiState} (d : Nat) (hh : s.txHead < mask + 1) (ht : s.txTail < mask + 1)
    (hfull : (txContents mask s).length = mask) :
    twiTransmitByte mask d s = s := by
  have hcnt : (txContents mask s).length = bufCount (mask + 1) s.txHead s.txTail :=
    bufContents_length hmask s.txBuf hh ht
  have hguard : ((s.txHead + 1) &&& mask) = s.txTail := by
    rw [and_mask_eq_mod hmask]
    exact (bufCount_full_iff (by omega) hh ht).mpr (by omega)
  unfold twiTransmitByte
  rw [if_pos hguard]

/-- On an own-SLA+R or data-transmitted-ACK event with an empty transmit
buffer, the ISR loads the 0x88 sentinel into `TWDR` and only rewrites
`TWCR`. -/
theorem twiISR_tx_empty (rxMask mask : Nat) {twsr : Nat} {s : TwiState}
    (htwsr : twsr = TWI_STX_ADR_ACK ∨ twsr = TWI_STX_DATA_ACK)
    (hempty : s.txHead = s.txTail) :
    twiISR rxMask mask twsr s = { s with TWDR := 0x88, TWCR := twcrArm } := by
  rcases htwsr with h | h <;> subst h <;>
    simp [twiISR, TWI_SRX_ADR_ACK, TWI_SRX_ADR_DATA_ACK, TWI_SRX_GEN_DATA_ACK,
      TWI_SRX_GEN_ACK, TWI_STX_ADR_ACK, TWI_STX_DATA_ACK, hempty]

/-- On an own-SLA+R or data-transmitted-ACK event with a non-empty transmit
buffer, the ISR pops exactly the oldest byte into `TWDR`, leaving the younger
bytes, and advances only `txTail` (plus the `TWCR` rewrite). -/
theorem twiISR_tx_pop {k mask : Nat} (hmask : mask = 2 ^ k - 1)
    (rxMask : Nat) {twsr : Nat} {s : TwiState} {d : Nat} {rest : List Nat}
    (htwsr : twsr = TWI_STX_ADR_ACK ∨ twsr = TWI_STX_DATA_ACK)
    (hh : s.txHead < mask + 1) (ht : s.txTail < mask + 1)
    (hcons : txContents mask s = d :: rest) :
    (twiISR rxMask mask twsr s).TWDR = d ∧
      txContents mask (twiISR rxMask mask twsr s) = rest ∧
      twiISR rxMask mask twsr s = { s with
        txTail := (s.txTail + 1) % (mask + 1), TWDR := d, TWCR := twcrArm } := by
  have hht : s.txHead ≠ s.txTail := by
    intro he
    rw [txContents, he, bufContents_self] at hcons
    exact List.noConfusion hcons
  have hsplit := bufContents_ne hmask s.txBuf hh ht hht
  rw [txContents, hsplit] at hcons
  injection hcons with h1 h2
  have hred : twiISR rxMask mask twsr s = { s with
      txTail := (s.txTail + 1) % (mask + 1),
      TWDR := s.txBuf.getD ((s.txTail + 1) % (mask + 1)) 0,
      TWCR := twcrArm } := by
    rcases htwsr with h | h <;> subst h <;>
      simp [twiISR, TWI_SRX_ADR_ACK, TWI_SRX_ADR_DATA_ACK, TWI_SRX_GEN_DATA_ACK,
        TWI_SRX_GEN_ACK, TWI_STX_ADR_ACK, TWI_STX_DATA_ACK, hht,
        and_mask_eq_mod hmask]
  refine ⟨?_, ?_, ?_⟩
  · rw [hred]
    exact h1
  · rw [hred, txContents]
    exact h2
  · rw [hred, h1]

/-! ### The in-bounds invariant -/

/-- All four FIFO indices are strictly below the capacity of their buffer,
and the backing storages have full capacity, so every `rxBuf[..]` and
`txBuf[..]` access of the driver is in bounds. -/
def TwiInv (nr nt : Nat) (s : TwiState) : Prop :=
  s.rxHead < nr ∧ s.rxTail < nr ∧ s.txHead < nt ∧ s.txTail < nt ∧
    s.rxBuf.length = nr ∧ s.txBuf.length = nt

instance (nr nt : Nat) (s : TwiState) : Decidable (TwiInv nr nt s) := by
  unfold TwiInv
  infer_instance

theorem TwiInv_twiStuffRxBuf {nr nt : Nat} {s : TwiState} (hs : TwiInv nr nt s)
    (d : Nat) : TwiInv nr nt (twiStuffRxBuf (nr - 1) d s) := by
  obtain ⟨h1, h2, h3, h4, h5, h6⟩ := hs
  have hle : (s.rxHead + 1) &&& (nr - 1) ≤ nr - 1 := Nat.and_le_right
  by_cases hc : (s.rxHead + 1) &&& (nr - 1) = s.rxTail
  · simp only [twiStuffRxBuf, if_pos hc]
    exact ⟨h1, h2, h3, h4, h5, h6⟩
  · simp only [twiStuffRxBuf, if_neg hc]
    refine ⟨?_, h2, h3, h4, ?_, h6⟩
    · show (s.rxHead + 1 &&& nr - 1) < nr
      omega
    · show (s.rxBuf.set (s.rxHead + 1 &&& nr - 1) d).length = nr
      simp [h5]

/-- The TWCR value of the ISR error branch has exactly the TWSTO and TWINT
bits set. -/
theorem testBit_twcrStop (i : Nat) :
    twcrStop.testBit i = true ↔ (i = TWSTO ∨ i = TWINT) := by
  have hv : twcrStop = 144 := by decide
  rw [hv]
  rcases Nat.lt_or_ge i 8 with hi | hi
  · interval_cases i <;> decide
  · have hlt : (144 : Nat) < 2 ^ i :=
      lt_of_lt_of_le (by norm_num) (Nat.pow_le_pow_right (by norm_num) hi)
    rw [Nat.testBit_lt_two_pow hlt]
    simp only [TWSTO, TWINT]
    constructor
    · intro h
      exact absurd h (by simp)
    · intro h
      omega

/-! ### The claims -/

/-- C1: for every sequence of pushes (`twiStuffRxBuf`) and pops
(`twiReceiveByte`) on the receive buffer that never exceeds capacity − 1
pending bytes, the bytes returned by the pops are exactly those an ideal FIFO
queue would return: every pushed byte is popped exactly once, in push order,
and the final buffer contents also agree with the ideal queue. -/
theorem claim1_rx_fifo_order (k : Nat) (s : TwiState) (ops : List RxOp)
    (hh : s.rxHead < 2 ^ k) (ht : s.rxTail < 2 ^ k)
    (hbuf : s.rxBuf.length = 2 ^ k)
    (hbound : boundedOps (2 ^ k) (rxContents (2 ^ k - 1) s) ops = true) :
    (rxRun (2 ^ k - 1) s ops).2 = (absRun (rxContents (2 ^ k - 1) s) ops).2 ∧
      rxContents (2 ^ k - 1) (rxRun (2 ^ k - 1) s ops).1
        = (absRun (rxContents (2 ^ k - 1) s) ops).1 := by
  have hp : (0 : Nat) < 2 ^ k := Nat.two_pow_pos k
  have he : 2 ^ k - 1 + 1 = 2 ^ k := by omega
  refine rxRun_sim rfl ops s (by omega) (by omega) (by omega) ?_
  rw [he]
  exact hbound

/-- Witness for C1: capacity 8, pushes 0x11, 0x22, 0x33 then four pops from
the zero-initialized state; the pops return 0x11, 0x22, 0x33 and then the
0x88 sentinel, exactly as the ideal queue does. -/
theorem claim1_rx_fifo_order_witness :
    (mkState 8 8).rxHead < 2 ^ 3 ∧ (mkState 8 8).rxTail < 2 ^ 3 ∧
      (mkState 8 8).rxBuf.length = 2 ^ 3 ∧
      boundedOps (2 ^ 3) (rxContents (2 ^ 3 - 1) (mkState 8 8))
        [RxOp.push 0x11, RxOp.push 0x22, RxOp.push 0x33,
          RxOp.pop, RxOp.pop, RxOp.pop, RxOp.pop] = true ∧
      ((rxRun (2 ^ 3 - 1) (mkState 8 8)
          [RxOp.push 0x11, RxOp.push 0x22, RxOp.push 0x33,
            RxOp.pop, RxOp.pop, RxOp.pop, RxOp.pop]).2
        = (absRun (rxContents (2 ^ 3 - 1) (mkState 8 8))
            [RxOp.push 0x11, RxOp.push 0x22, RxOp.push 0x33,
              RxOp.pop, RxOp.pop, RxOp.pop, RxOp.pop]).2 ∧
        rxContents (2 ^ 3 - 1)
            (rxRun (2 ^ 3 - 1) (mkState 8 8)
              [RxOp.push 0x11, RxOp.push 0x22, RxOp.push 0x33,
                RxOp.pop, RxOp.pop, RxOp.pop, RxOp.pop]).1
          = (absRun (rxContents (2 ^ 3 - 1) (mkState 8 8))
              [RxOp.push 0x11, RxOp.push 0x22, RxOp.push 0x33,
                RxOp.pop, RxOp.pop, RxOp.pop, RxOp.pop]).1) :=
  ⟨by decide, by decide, by decide, by decide,
    claim1_rx_fifo_order 3 (mkState 8 8)
      [RxOp.push 0x11, RxOp.push 0x22, RxOp.push 0x33,
        RxOp.pop, RxOp.pop, RxOp.pop, RxOp.pop]
      (by decide) (by decide) (by decide) (by decide)⟩

/-- C3: on an empty receive buffer (`rxHead == rxTail`), `twiReceiveByte`
returns the 0x88 sentinel and leaves the entire state — in particular
`rxTail` — unchanged. -/
theorem claim3_receive_empty (rxMask : Nat) (s : TwiState)
    (hempty : s.rxHead = s.rxTail) :
    (twiReceiveByte rxMask s).1 = 0x88 ∧ (twiReceiveByte rxMask s).2 = s := by
  rw [twiReceiveByte_empty rxMask hempty]
  exact ⟨rfl, rfl⟩

/-- Witness for C3 at the zero-initialized state with mask 0x07. -/
theorem claim3_receive_empty_witness :
    (mkState 8 8).rxHead = (mkState 8 8).rxTail ∧
      ((twiReceiveByte 7 (mkState 8 8)).1 = 0x88 ∧
        (twiReceiveByte 7 (mkState 8 8)).2 = mkState 8 8) :=
  ⟨by decide, claim3_receive_empty 7 (mkState 8 8) (by decide)⟩

/-- C5: on every error-class status (data NACKed as receiver under own or
general address, last transmitted byte, no relevant state, bus error), the
ISR writes TWCR with exactly the TWSTO and TWINT bits set and leaves both
FIFOs — storage, heads and tails — completely unchanged. -/
theorem claim5_error_branch (rxMask txMask : Nat) {twsr : Nat} (s : TwiState)
    (herr : twsr = TWI_SRX_ADR_DATA_NACK ∨ twsr = TWI_SRX_GEN_DATA_NACK ∨
      twsr = TWI_STX_DATA_ACK_LAST_BYTE ∨ twsr = TWI_NO_STATE ∨
      twsr = TWI_BUS_ERROR) :
    (twiISR rxMask txMask twsr s).TWCR = (1 <<< TWSTO) ||| (1 <<< TWINT) ∧
      (∀ i, (twiISR rxMask txMask twsr s).TWCR.testBit i = true ↔
        (i = TWSTO ∨ i = TWINT)) ∧
      (twiISR rxMask txMask twsr s).rxBuf = s.rxBuf ∧
      (twiISR rxMask txMask twsr s).rxHead = s.rxHead ∧
      (twiISR rxMask txMask twsr s).rxTail = s.rxTail ∧
      (twiISR rxMask txMask twsr s).txBuf = s.txBuf ∧
      (twiISR rxMask txMask twsr s).txHead = s.txHead ∧
      (twiISR rxMask txMask twsr s).txTail = s.txTail := by
  have hred : twiISR rxMask txMask twsr s = { s with TWCR := twcrStop } := by
    rcases herr with h | h | h | h | h <;> subst h <;>
      simp [twiISR, TWI_SRX_ADR_ACK, TWI_SRX_ADR_DATA_ACK, TWI_SRX_GEN_DATA_ACK,
        TWI_SRX_GEN_ACK, TWI_STX_ADR_ACK, TWI_STX_DATA_ACK, TWI_STX_DATA_NACK,
        TWI_SRX_STOP_RESTART, TWI_SRX_ADR_DATA_NACK, TWI_SRX_GEN_DATA_NACK,
        TWI_STX_DATA_ACK_LAST_BYTE, TWI_NO_STATE, TWI_BUS_ERROR]
  rw [hred]
  exact ⟨rfl, testBit_twcrStop, rfl, rfl, rfl, rfl, rfl, rfl⟩

/-- Witness for C5: a bus-error event (status 0x00) on a state holding a
byte in each FIFO leaves both FIFOs untouched and forces the stop TWCR. -/
theorem claim5_error_branch_witness :
    ((TWI_BUS_ERROR : Nat) = TWI_SRX_ADR_DATA_NACK ∨
      TWI_BUS_ERROR = TWI_SRX_GEN_DATA_NACK ∨
      TWI_BUS_ERROR = TWI_STX_DATA_ACK_LAST_BYTE ∨
      TWI_BUS_ERROR = TWI_NO_STATE ∨ TWI_BUS_ERROR = TWI_BUS_ERROR) ∧
      (twiISR 7 7 TWI_BUS_ERROR
          (twiStuffRxBuf 7 0x5A (twiTransmitByte 7 0x42 (mkState 8 8)))).TWCR
        = (1 <<< TWSTO) ||| (1 <<< TWINT) ∧
      (twiISR 7 7 TWI_BUS_ERROR
          (twiStuffRxBuf 7 0x5A (twiTransmitByte 7 0x42 (mkState 8 8)))).rxBuf
        = (twiStuffRxBuf 7 0x5A (twiTransmitByte 7 0x42 (mkState 8 8))).rxBuf ∧
      (twiISR 7 7 TWI_BUS_ERROR
          (twiStuffRxBuf 7 0x5A (twiTransmitByte 7 0x42 (mkState 8 8)))).txTail
        = (twiStuffRxBuf 7 0x5A (twiTransmitByte 7 0x42 (mkState 8 8))).txTail :=
  ⟨by decide,
    (claim5_error_branch 7 7
      (twiStuffRxBuf 7 0x5A (twiTransmitByte 7 0x42 (mkState 8 8)))
      (by decide)).1,
    (claim5_error_branch 7 7
      (twiStuffRxBuf 7 0x5A (twiTransmitByte 7 0x42 (mkState 8 8)))
      (by decide)).2.2.1,
    (claim5_error_branch 7 7
      (twiStuffRxBuf 7 0x5A (twiTransmitByte 7 0x42 (mkState 8 8)))
      (by decide)).2.2.2.2.2.2.2⟩

/-- C8: `twiSlaveInit a` for a 7-bit address `a` writes TWAR with `a` in the
upper seven bits (`TWAR = a << 1`, so `TWAR >> 1 = a`) and a zero low bit,
and writes TWCR with the TWEN bit set but TWIE and TWEA clear, so the
interface raises no interrupt-driven responses; `twiSlaveEnable` is what sets
TWIE and TWEA. -/
theorem claim8_init (a : Nat) (ha : a < 128) (s s2 : TwiState) :
    (twiSlaveInit a s).TWAR = a <<< 1 ∧
      (twiSlaveInit a s).TWAR >>> 1 = a ∧
      (twiSlaveInit a s).TWAR &&& 1 = 0 ∧
      ((twiSlaveInit a s).TWCR.testBit TWEN = true ∧
        (twiSlaveInit a s).TWCR.testBit TWIE = false ∧
        (twiSlaveInit a s).TWCR.testBit TWEA = false) ∧
      ((twiSlaveEnable s2).TWCR.testBit TWIE = true ∧
        (twiSlaveEnable s2).TWCR.testBit TWEA = true) := by
  have hTWAR : (twiSlaveInit a s).TWAR = a * 2 := by
    show ((a <<< 1) ||| 0) % 256 = a * 2
    rw [Nat.or_zero, Nat.shiftLeft_eq, pow_one]
    exact Nat.mod_eq_of_lt (by omega)
  refine ⟨?_, ?_, ?_, ⟨?_, ?_, ?_⟩, ?_, ?_⟩
  · rw [hTWAR, Nat.shiftLeft_eq, pow_one]
  · rw [hTWAR, Nat.shiftRight_eq_div_pow, pow_one]
    omega
  · rw [hTWAR, Nat.and_one_is_mod]
    exact Nat.mul_mod_left a 2
  · simp only [twiSlaveInit]
    decide
  · simp only [twiSlaveInit]
    decide
  · simp only [twiSlaveInit]
    decide
  · simp only [twiSlaveEnable]
    decide
  · simp only [twiSlaveEnable]
    decide

/-- Witness for C8 at address 0x51. -/
theorem claim8_init_witness :
    (0x51 : Nat) < 128 ∧
      ((twiSlaveInit 0x51 (mkState 8 8)).TWAR = 0x51 <<< 1 ∧
        (twiSlaveInit 0x51 (mkState 8 8)).TWAR >>> 1 = 0x51 ∧
        (twiSlaveInit 0x51 (mkState 8 8)).TWAR &&& 1 = 0 ∧
        ((twiSlaveInit 0x51 (mkState 8 8)).TWCR.testBit TWEN = true ∧
          (twiSlaveInit 0x51 (mkState 8 8)).TWCR.testBit TWIE = false ∧
          (twiSlaveInit 0x51 (mkState 8 8)).TWCR.testBit TWEA = false) ∧
        ((twiSlaveEnable (mkState 8 8)).TWCR.testBit TWIE = true ∧
          (twiSlaveEnable (mkState 8 8)).TWCR.testBit TWEA = true)) :=
  ⟨by decide, claim8_init 0x51 (by decide) (mkState 8 8) (mkState 8 8)⟩

/-- C10: for every address argument, `twiSlaveInit` writes TWAR with a zero
least-significant bit (TWGCE, general-call recognition, disabled), even
though the event handler does contain live branches for the general-call
status codes 0x70 and 0x90 (shown here re-arming and pushing into the
receive buffer respectively). -/
theorem claim10_general_call_disabled (a rxMask txMask : Nat) (s : TwiState) :
    (twiSlaveInit a s).TWAR &&& 1 = 0 ∧
      twiISR rxMask txMask TWI_SRX_GEN_ACK s = { s with TWCR := twcrArm } ∧
      twiISR rxMask txMask TWI_SRX_GEN_DATA_ACK s
        = { twiStuffRxBuf rxMask s.TWDR s with TWCR := twcrArm } := by
  refine ⟨?_, ?_, ?_⟩
  · show (((a <<< 1) ||| 0) % 256) &&& 1 = 0
    rw [Nat.or_zero, Nat.and_one_is_mod,
      Nat.mod_mod_of_dvd _ (by norm_num : (2 : Nat) ∣ 256),
      Nat.shiftLeft_eq, pow_one]
    exact Nat.mul_mod_left a 2
  · simp [twiISR, TWI_SRX_ADR_ACK, TWI_SRX_ADR_DATA_ACK, TWI_SRX_GEN_DATA_ACK,
      TWI_SRX_GEN_ACK]
  · simp [twiISR, TWI_SRX_ADR_ACK, TWI_SRX_ADR_DATA_ACK, TWI_SRX_GEN_DATA_ACK]

/-- Counterexample for C2 as stated.  In the C sources both push functions
return `void`: the embedding therefore returns only the successor state, and
any failure report would have to be observable there.  On a buffer already
holding capacity − 1 bytes the entire state — registers included — is
bit-for-bit unchanged, so the push produces no failure indication of any
kind, refuting the claim's "reports failure" conjunct (the remaining
conjuncts, unchanged buffer and no eviction, do hold and are exactly this
equality). -/
theorem claim2_counterexample :
    (txContents (2 ^ 3 - 1) { mkState 8 8 with txHead := 7 }).length = 2 ^ 3 - 1 ∧
      twiTransmitByte (2 ^ 3 - 1) 0x42 { mkState 8 8 with txHead := 7 }
        = { mkState 8 8 with txHead := 7 } ∧
      (rxContents (2 ^ 3 - 1) { mkState 8 8 with rxHead := 7 }).length
        = 2 ^ 3 - 1 ∧
      twiStuffRxBuf (2 ^ 3 - 1) 0x42 { mkState 8 8 with rxHead := 7 }
        = { mkState 8 8 with rxHead := 7 } := by
  decide

/-- C2 (amended): pushing (`twiTransmitByte` or `twiStuffRxBuf`) onto a
buffer already holding capacity − 1 bytes leaves the whole state — buffer
contents, head and tail — unchanged and silently discards the byte; no
failure is reported (the functions return void and change nothing
observable), and the oldest byte is never evicted. -/
theorem claim2_push_full_silent (k : Nat) (s : TwiState) (d e : Nat)
    (hth : s.txHead < 2 ^ k) (htt : s.txTail < 2 ^ k)
    (hrh : s.rxHead < 2 ^ k) (hrt : s.rxTail < 2 ^ k) :
    ((txContents (2 ^ k - 1) s).length = 2 ^ k - 1 →
      twiTransmitByte (2 ^ k - 1) d s = s) ∧
    ((rxContents (2 ^ k - 1) s).length = 2 ^ k - 1 →
      twiStuffRxBuf (2 ^ k - 1) e s = s) := by
  have hp : (0 : Nat) < 2 ^ k := Nat.two_pow_pos k
  constructor
  · intro hfull
    exact twiTransmitByte_full (k := k) rfl d (by omega) (by omega) hfull
  · intro hfull
    exact twiStuffRxBuf_full (k := k) rfl e (by omega) (by omega) hfull

/-- Witness for the amended C2: capacity 8, both FIFOs holding 7 bytes. -/
theorem claim2_push_full_silent_witness :
    ({ mkState 8 8 with txHead := 7, rxHead := 7 } : TwiState).txHead < 2 ^ 3 ∧
      ({ mkState 8 8 with txHead := 7, rxHead := 7 } : TwiState).txTail < 2 ^ 3 ∧
      ({ mkState 8 8 with txHead := 7, rxHead := 7 } : TwiState).rxHead < 2 ^ 3 ∧
      ({ mkState 8 8 with txHead := 7, rxHead := 7 } : TwiState).rxTail < 2 ^ 3 ∧
      twiTransmitByte (2 ^ 3 - 1) 0x42 { mkState 8 8 with txHead := 7, rxHead := 7 }
        = { mkState 8 8 with txHead := 7, rxHead := 7 } ∧
      twiStuffRxBuf (2 ^ 3 - 1) 0x37 { mkState 8 8 with txHead := 7, rxHead := 7 }
        = { mkState 8 8 with txHead := 7, rxHead := 7 } :=
  ⟨by decide, by decide, by decide, by decide,
    (claim2_push_full_silent 3 { mkState 8 8 with txHead := 7, rxHead := 7 }
      0x42 0x37 (by decide) (by decide) (by decide) (by decide)).1 (by decide),
    (claim2_push_full_silent 3 { mkState 8 8 with txHead := 7, rxHead := 7 }
      0x42 0x37 (by decide) (by decide) (by decide) (by decide)).2 (by decide)⟩

/-- C4: on an own-SLA+R (0xA8) or data-transmitted-ACK (0xB8) event, the ISR
pops exactly one byte from the transmit FIFO into the data register TWDR if
the FIFO is non-empty, and loads the 0x88 sentinel into TWDR instead if it
is empty. -/
theorem claim4_tx_event (k rxMask twsr : Nat) (s : TwiState)
    (htwsr : twsr = TWI_STX_ADR_ACK ∨ twsr = TWI_STX_DATA_ACK)
    (hh : s.txHead < 2 ^ k) (ht : s.txTail < 2 ^ k) :
    (txContents (2 ^ k - 1) s = [] →
      twiISR rxMask (2 ^ k - 1) twsr s
        = { s with TWDR := 0x88, TWCR := twcrArm }) ∧
    (∀ d rest, txContents (2 ^ k - 1) s = d :: rest →
      (twiISR rxMask (2 ^ k - 1) twsr s).TWDR = d ∧
        txContents (2 ^ k - 1) (twiISR rxMask (2 ^ k - 1) twsr s) = rest ∧
        twiISR rxMask (2 ^ k - 1) twsr s
          = { s with
              txTail := (s.txTail + 1) % (2 ^ k - 1 + 1),
              TWDR := d, TWCR := twcrArm }) := by
  have hp : (0 : Nat) < 2 ^ k := Nat.two_pow_pos k
  constructor
  · intro hnil
    have hempty : s.txHead = s.txTail := by
      by_contra hne
      rw [txContents,
        bufContents_ne (k := k) rfl s.txBuf (by omega) (by omega) hne] at hnil
      exact List.noConfusion hnil
    exact twiISR_tx_empty rxMask (2 ^ k - 1) htwsr hempty
  · intro d rest hcons
    exact twiISR_tx_pop (k := k) rfl rxMask htwsr (by omega) (by omega) hcons

/-- Witness for C4: one queued byte 0x5A, event 0xA8 — TWDR receives 0x5A
and the FIFO becomes empty. -/
theorem claim4_tx_event_witness :
    ((TWI_STX_ADR_ACK : Nat) = TWI_STX_ADR_ACK ∨
      (TWI_STX_ADR_ACK : Nat) = TWI_STX_DATA_ACK) ∧
      (twiTransmitByte 7 0x5A (mkState 8 8)).txHead < 2 ^ 3 ∧
      (twiTransmitByte 7 0x5A (mkState 8 8)).txTail < 2 ^ 3 ∧
      txContents (2 ^ 3 - 1) (twiTransmitByte 7 0x5A (mkState 8 8)) = [0x5A] ∧
      ((twiISR 7 (2 ^ 3 - 1) TWI_STX_ADR_ACK
          (twiTransmitByte 7 0x5A (mkState 8 8))).TWDR = 0x5A ∧
        txContents (2 ^ 3 - 1)
          (twiISR 7 (2 ^ 3 - 1) TWI_STX_ADR_ACK
            (twiTransmitByte 7 0x5A (mkState 8 8))) = [] ∧
        twiISR 7 (2 ^ 3 - 1) TWI_STX_ADR_ACK (twiTransmitByte 7 0x5A (mkState 8 8))
          = { twiTransmitByte 7 0x5A (mkState 8 8) with
              txTail := ((twiTransmitByte 7 0x5A (mkState 8 8)).txTail + 1)
                % (2 ^ 3 - 1 + 1),
              TWDR := 0x5A, TWCR := twcrArm }) :=
  ⟨Or.inl rfl, by decide, by decide, by decide,
    (claim4_tx_event 3 7 TWI_STX_ADR_ACK (twiTransmitByte 7 0x5A (mkState 8 8))
      (Or.inl rfl) (by decide) (by decide)).2 0x5A [] (by decide)⟩

/-- The receive contents ignore the TWCR register. -/
theorem rxContents_setTWCR (mask c : Nat) (s : TwiState) :
    rxContents mask { s with TWCR := c } = rxContents mask s := rfl

/-- C6: a data-received-ACK event (status 0x80, or 0x90 under general call)
carrying byte `b` in the data register while the receive buffer is empty
makes `twiDataInReceiveBuffer` true, and the next `twiReceiveByte` returns
exactly `b`. -/
theorem claim6_data_received (k txMask b : Nat) {twsr : Nat} (s : TwiState)
    (hk : 1 ≤ k)
    (htwsr : twsr = TWI_SRX_ADR_DATA_ACK ∨ twsr = TWI_SRX_GEN_DATA_ACK)
    (hempty : s.rxHead = s.rxTail) (hh : s.rxHead < 2 ^ k)
    (hbuf : s.rxBuf.length = 2 ^ k) (hdata : s.TWDR = b) :
    twiDataInReceiveBuffer (twiISR (2 ^ k - 1) txMask twsr s) = true ∧
      (twiReceiveByte (2 ^ k - 1) (twiISR (2 ^ k - 1) txMask twsr s)).1 = b := by
  have hp : (0 : Nat) < 2 ^ k := Nat.two_pow_pos k
  have h2 : (2 : Nat) ≤ 2 ^ k := by
    calc (2 : Nat) = 2 ^ 1 := (pow_one 2).symm
    _ ≤ 2 ^ k := Nat.pow_le_pow_right (by norm_num) hk
  have ht : s.rxTail < 2 ^ k := hempty ▸ hh
  have hce : rxContents (2 ^ k - 1) s = [] := by
    rw [rxContents, hempty, bufContents_self]
  obtain ⟨happ, hstate⟩ :=
    twiStuffRxBuf_append (k := k) (s := s) (d := s.TWDR) rfl
      (by omega) (by omega) (by omega)
      (by rw [hce]; show (0 : Nat) + 1 ≤ 2 ^ k - 1; omega)
  rw [hce] at happ
  simp only [List.nil_append] at happ
  have hISR : twiISR (2 ^ k - 1) txMask twsr s
      = { twiStuffRxBuf (2 ^ k - 1) s.TWDR s with TWCR := twcrArm } := by
    rcases htwsr with h | h <;> subst h <;>
      simp [twiISR, TWI_SRX_ADR_ACK, TWI_SRX_ADR_DATA_ACK, TWI_SRX_GEN_DATA_ACK]
  have hcu : rxContents (2 ^ k - 1) (twiISR (2 ^ k - 1) txMask twsr s) = [b] := by
    rw [hISR, rxContents_setTWCR, happ, hdata]
  have hne : (twiISR (2 ^ k - 1) txMask twsr s).rxHead
      ≠ (twiISR (2 ^ k - 1) txMask twsr s).rxTail := by
    intro he
    rw [rxContents, he, bufContents_self] at hcu
    exact List.noConfusion hcu
  constructor
  · simp only [twiDataInReceiveBuffer, bne_iff_ne, ne_eq]
    exact hne
  · have hh2 : (twiISR (2 ^ k - 1) txMask twsr s).rxHead < 2 ^ k - 1 + 1 := by
      rw [hISR]
      show (twiStuffRxBuf (2 ^ k - 1) s.TWDR s).rxHead < 2 ^ k - 1 + 1
      rw [hstate]
      show (s.rxHead + 1) % (2 ^ k - 1 + 1) < 2 ^ k - 1 + 1
      exact Nat.mod_lt _ (by omega)
    have ht2 : (twiISR (2 ^ k - 1) txMask twsr s).rxTail < 2 ^ k - 1 + 1 := by
      rw [hISR]
      show (twiStuffRxBuf (2 ^ k - 1) s.TWDR s).rxTail < 2 ^ k - 1 + 1
      rw [hstate]
      show s.rxTail < 2 ^ k - 1 + 1
      omega
    exact (twiReceiveByte_cons (k := k) rfl hh2 ht2 hcu).1

/-- Witness for C6: status 0x80 with data byte 0x5A on the empty zero
state. -/
theorem claim6_data_received_witness :
    (1 : Nat) ≤ 3 ∧
      ((TWI_SRX_ADR_DATA_ACK : Nat) = TWI_SRX_ADR_DATA_ACK ∨
        (TWI_SRX_ADR_DATA_ACK : Nat) = TWI_SRX_GEN_DATA_ACK) ∧
      ({ mkState 8 8 with TWDR := 0x5A } : TwiState).rxHead
        = ({ mkState 8 8 with TWDR := 0x5A } : TwiState).rxTail ∧
      ({ mkState 8 8 with TWDR := 0x5A } : TwiState).rxHead < 2 ^ 3 ∧
      ({ mkState 8 8 with TWDR := 0x5A } : TwiState).rxBuf.length = 2 ^ 3 ∧
      ({ mkState 8 8 with TWDR := 0x5A } : TwiState).TWDR = 0x5A ∧
      (twiDataInReceiveBuffer
          (twiISR (2 ^ 3 - 1) 7 TWI_SRX_ADR_DATA_ACK
            { mkState 8 8 with TWDR := 0x5A }) = true ∧
        (twiReceiveByte (2 ^ 3 - 1)
            (twiISR (2 ^ 3 - 1) 7 TWI_SRX_ADR_DATA_ACK
              { mkState 8 8 with TWDR := 0x5A })).1 = 0x5A) :=
  ⟨by decide, Or.inl rfl, by decide, by decide, by decide, by decide,
    claim6_data_received 3 7 0x5A { mkState 8 8 with TWDR := 0x5A }
      (by decide) (Or.inl rfl) (by decide) (by decide) (by decide) (by decide)⟩

/-- C7: after `twiClearOutput` the transmit buffer reports no data and after
`flushTwiBuffers` both buffers report no data; from either cleared state a
single push followed by the corresponding pop (the ISR transmit load for the
tx side, `twiReceiveByte` for the rx side) yields exactly the pushed
byte. -/
theorem claim7_clear_roundtrip (kt kr : Nat) (hkt : 1 ≤ kt) (hkr : 1 ≤ kr)
    (rxMask : Nat) (s : TwiState) (d e : Nat)
    (htx : s.txBuf.length = 2 ^ kt) (hrx : s.rxBuf.length = 2 ^ kr) :
    twiDataInTransmitBuffer (twiClearOutput s) = false ∧
      twiDataInReceiveBuffer (flushTwiBuffers s) = false ∧
      twiDataInTransmitBuffer (flushTwiBuffers s) = false ∧
      (twiISR rxMask (2 ^ kt - 1) TWI_STX_ADR_ACK
        (twiTransmitByte (2 ^ kt - 1) d (twiClearOutput s))).TWDR = d ∧
      (twiReceiveByte (2 ^ kr - 1)
        (twiStuffRxBuf (2 ^ kr - 1) e (flushTwiBuffers s))).1 = e := by
  have hpt : (0 : Nat) < 2 ^ kt := Nat.two_pow_pos kt
  have h2t : (2 : Nat) ≤ 2 ^ kt := by
    calc (2 : Nat) = 2 ^ 1 := (pow_one 2).symm
    _ ≤ 2 ^ kt := Nat.pow_le_pow_right (by norm_num) hkt
  have hpr : (0 : Nat) < 2 ^ kr := Nat.two_pow_pos kr
  have h2r : (2 : Nat) ≤ 2 ^ kr := by
    calc (2 : Nat) = 2 ^ 1 := (pow_one 2).symm
    _ ≤ 2 ^ kr := Nat.pow_le_pow_right (by norm_num) hkr
  refine ⟨?_, ?_, ?_, ?_, ?_⟩
  · simp [twiDataInTransmitBuffer, twiClearOutput]
  · simp [twiDataInReceiveBuffer, flushTwiBuffers]
  · simp [twiDataInTransmitBuffer, flushTwiBuffers]
  · have hce : txContents (2 ^ kt - 1) (twiClearOutput s) = [] := by
      show bufContents (2 ^ kt - 1) s.txBuf 0 0 = []
      exact bufContents_self _ _ _
    obtain ⟨happ, hstate⟩ :=
      twiTransmitByte_append (k := kt) (s := twiClearOutput s) (d := d) rfl
        (by show (0 : Nat) < 2 ^ kt - 1 + 1; omega)
        (by show (0 : Nat) < 2 ^ kt - 1 + 1; omega)
        (by show s.txBuf.length = 2 ^ kt - 1 + 1; omega)
        (by rw [hce]; show (0 : Nat) + 1 ≤ 2 ^ kt - 1; omega)
    rw [hce] at happ
    simp only [List.nil_append] at happ
    have hh2 : (twiTransmitByte (2 ^ kt - 1) d (twiClearOutput s)).txHead
        < 2 ^ kt - 1 + 1 := by
      rw [hstate]
      show ((twiClearOutput s).txHead + 1) % (2 ^ kt - 1 + 1) < 2 ^ kt - 1 + 1
      exact Nat.mod_lt _ (by omega)
    have ht2 : (twiTransmitByte (2 ^ kt - 1) d (twiClearOutput s)).txTail
        < 2 ^ kt - 1 + 1 := by
      rw [hstate]
      show (0 : Nat) < 2 ^ kt - 1 + 1
      omega
    exact (twiISR_tx_pop (k := kt) rfl rxMask (Or.inl rfl) hh2 ht2 happ).1
  · have hce : rxContents (2 ^ kr - 1) (flushTwiBuffers s) = [] := by
      show bufContents (2 ^ kr - 1) s.rxBuf 0 0 = []
      exact bufContents_self _ _ _
    obtain ⟨happ, hstate⟩ :=
      twiStuffRxBuf_append (k := kr) (s := flushTwiBuffers s) (d := e) rfl
        (by show (0 : Nat) < 2 ^ kr - 1 + 1; omega)
        (by show (0 : Nat) < 2 ^ kr - 1 + 1; omega)
        (by show s.rxBuf.length = 2 ^ kr - 1 + 1; omega)
        (by rw [hce]; show (0 : Nat) + 1 ≤ 2 ^ kr - 1; omega)
    rw [hce] at happ
    simp only [List.nil_append] at happ
    have hh2 : (twiStuffRxBuf (2 ^ kr - 1) e (flushTwiBuffers s)).rxHead
        < 2 ^ kr - 1 + 1 := by
      rw [hstate]
      show ((flushTwiBuffers s).rxHead + 1) % (2 ^ kr - 1 + 1) < 2 ^ kr - 1 + 1
      exact Nat.mod_lt _ (by omega)
    have ht2 : (twiStuffRxBuf (2 ^ kr - 1) e (flushTwiBuffers s)).rxTail
        < 2 ^ kr - 1 + 1 := by
      rw [hstate]
      show (0 : Nat) < 2 ^ kr - 1 + 1
      omega
    exact (twiReceiveByte_cons (k := kr) rfl hh2 ht2 happ).1

/-- Witness for C7: capacity 8 on both sides, pushed bytes 0x42 and 0x99. -/
theorem claim7_clear_roundtrip_witness :
    (1 : Nat) ≤ 3 ∧ (mkState 8 8).txBuf.length = 2 ^ 3 ∧
      (mkState 8 8).rxBuf.length = 2 ^ 3 ∧
      (twiDataInTransmitBuffer (twiClearOutput (mkState 8 8)) = false ∧
        twiDataInReceiveBuffer (flushTwiBuffers (mkState 8 8)) = false ∧
        twiDataInTransmitBuffer (flushTwiBuffers (mkState 8 8)) = false ∧
        (twiISR 7 (2 ^ 3 - 1) TWI_STX_ADR_ACK
          (twiTransmitByte (2 ^ 3 - 1) 0x42 (twiClearOutput (mkState 8 8)))).TWDR
          = 0x42 ∧
        (twiReceiveByte (2 ^ 3 - 1)
          (twiStuffRxBuf (2 ^ 3 - 1) 0x99 (flushTwiBuffers (mkState 8 8)))).1
          = 0x99) :=
  ⟨by decide, by decide, by decide,
    claim7_clear_roundtrip 3 3 (by decide) (by decide) 7 (mkState 8 8) 0x42 0x99
      (by decide) (by decide)⟩

/-! ### Invariant preservation helpers for C9 -/

theorem TwiInv_twiTransmitByte {nr nt : Nat} {s : TwiState} (hs : TwiInv nr nt s)
    (d : Nat) : TwiInv nr nt (twiTransmitByte (nt - 1) d s) := by
  obtain ⟨h1, h2, h3, h4, h5, h6⟩ := hs
  have hle : (s.txHead + 1) &&& (nt - 1) ≤ nt - 1 := Nat.and_le_right
  by_cases hc : (s.txHead + 1) &&& (nt - 1) = s.txTail
  · simp only [twiTransmitByte, if_pos hc]
    exact ⟨h1, h2, h3, h4, h5, h6⟩
  · simp only [twiTransmitByte, if_neg hc]
    refine ⟨h1, h2, ?_, h4, h5, ?_⟩
    · show (s.txHead + 1 &&& nt - 1) < nt
      omega
    · show (s.txBuf.set (s.txHead + 1 &&& nt - 1) d).length = nt
      simp [h6]

theorem TwiInv_twiReceiveByte {nr nt : Nat} {s : TwiState}
    (hs : TwiInv nr nt s) : TwiInv nr nt (twiReceiveByte (nr - 1) s).2 := by
  obtain ⟨h1, h2, h3, h4, h5, h6⟩ := hs
  have hle : (s.rxTail + 1) &&& (nr - 1) ≤ nr - 1 := Nat.and_le_right
  by_cases hc : s.rxHead = s.rxTail
  · simp only [twiReceiveByte, if_pos hc]
    exact ⟨h1, h2, h3, h4, h5, h6⟩
  · simp only [twiReceiveByte, if_neg hc]
    refine ⟨h1, ?_, h3, h4, h5, h6⟩
    show (s.rxTail + 1 &&& nr - 1) < nr
    omega

theorem TwiInv_twiISR {nr nt : Nat} {s : TwiState} (hs : TwiInv nr nt s)
    (twsr : Nat) : TwiInv nr nt (twiISR (nr - 1) (nt - 1) twsr s) := by
  have hstuff := TwiInv_twiStuffRxBuf hs s.TWDR
  obtain ⟨h1, h2, h3, h4, h5, h6⟩ := hs
  have hle : (s.txTail + 1) &&& (nt - 1) ≤ nt - 1 := Nat.and_le_right
  unfold twiISR
  split_ifs
  all_goals
    first
      | exact ⟨h1, h2, h3, h4, h5, h6⟩
      | exact hstuff
      | (refine ⟨h1, h2, h3, ?_, h5, h6⟩
         show (s.txTail + 1 &&& nt - 1) < nt
         omega)

/-- C9: starting from the zero-initialized state, every driver operation and
every ISR branch keeps all four FIFO indices strictly below their buffer's
capacity (each update is either 0 or masked with the buffer mask), so every
`rxBuf[..]` and `txBuf[..]` access stays in bounds. -/
theorem claim9_index_invariant (nr nt : Nat) (hnr : 0 < nr) (hnt : 0 < nt)
    (s : TwiState) (hs : TwiInv nr nt s) (d e twsr : Nat) :
    TwiInv nr nt (mkState nr nt) ∧
      TwiInv nr nt (twiTransmitByte (nt - 1) d s) ∧
      TwiInv nr nt (twiReceiveByte (nr - 1) s).2 ∧
      TwiInv nr nt (twiStuffRxBuf (nr - 1) e s) ∧
      TwiInv nr nt (twiClearOutput s) ∧
      TwiInv nr nt (flushTwiBuffers s) ∧
      TwiInv nr nt (twiISR (nr - 1) (nt - 1) twsr s) := by
  obtain ⟨h1, h2, h3, h4, h5, h6⟩ := hs
  refine ⟨⟨hnr, hnr, hnt, hnt, by simp [mkState], by simp [mkState]⟩,
    TwiInv_twiTransmitByte ⟨h1, h2, h3, h4, h5, h6⟩ d,
    TwiInv_twiReceiveByte ⟨h1, h2, h3, h4, h5, h6⟩,
    TwiInv_twiStuffRxBuf ⟨h1, h2, h3, h4, h5, h6⟩ e,
    ⟨h1, h2, hnt, hnt, h5, h6⟩,
    ⟨hnr, hnr, hnt, hnt, h5, h6⟩,
    TwiInv_twiISR ⟨h1, h2, h3, h4, h5, h6⟩ twsr⟩

/-- Witness for C9 at capacity 8, the zero state, and the bus-error status. -/
theorem claim9_index_invariant_witness :
    (0 : Nat) < 8 ∧ TwiInv 8 8 (mkState 8 8) ∧
      (TwiInv 8 8 (mkState 8 8) ∧
        TwiInv 8 8 (twiTransmitByte (8 - 1) 0x42 (mkState 8 8)) ∧
        TwiInv 8 8 (twiReceiveByte (8 - 1) (mkState 8 8)).2 ∧
        TwiInv 8 8 (twiStuffRxBuf (8 - 1) 0x5A (mkState 8 8)) ∧
        TwiInv 8 8 (twiClearOutput (mkState 8 8)) ∧
        TwiInv 8 8 (flushTwiBuffers (mkState 8 8)) ∧
        TwiInv 8 8 (twiISR (8 - 1) (8 - 1) TWI_BUS_ERROR (mkState 8 8))) :=
  ⟨by decide, by decide,
    claim9_index_invariant 8 8 (by decide) (by decide) (mkState 8 8)
      (by decide) 0x42 0x5A TWI_BUS_ERROR⟩

end TwiSlave
